import Mathlib

/-!
Verification of the godocjson documentation-to-JSON converter.

This file contains a shallow embedding, in Lean 4, of the core of
`godocjson.go`:

* the recursive type-signature stringifier `typeOf`,
* the parameter-list flattener `processFuncDecl`,
* the model copier `CopyValues` / `CopyFuncs` / `CopyPackage`,
* the package-count check of `main`,
* a heap-instrumented variant of the copier, used to state the
  frame property (the copier never writes through pointers of the
  input model).

Go panics (the explicit `panic` in the stringifier's default branch as
well as runtime panics such as an index-out-of-range on `x.Names[0]`
or the nil-pointer dereference on `x.Results.List`) are modelled by
the `Except String` monad: `.error msg` means the process aborts with
that diagnostic.
-/

namespace Godocjson

/--
Syntax-tree type expressions, mirroring the cases that
`typeOf` (godocjson.go:99-140) switches over.  A `go/ast` field list is
embedded as a `List (List String × Expr)`: per field its declared names
(possibly empty, for anonymous/unnamed fields) and its type expression.
`funcType`'s result list is an `Option` because `ast.FuncType.Results`
is a possibly-nil pointer (`nil` when the function type declares no
results), while `Params` is documented non-nil.  The `other`
constructor stands for any `ast.Expr` variant outside the enumerated
set (e.g. `*ast.ChanType`); its argument is the `%+v` rendering of the
node used in the panic diagnostic.
-/
inductive Expr where
  | ident (name : String)
  | arrayType (elt : Expr)
  | field (names : List String) (type : Expr)
  | structType (fields : List (List String × Expr))
  | interfaceType (methods : List (List String × Expr))
  | selectorExpr (x : Expr) (sel : String)
  | ellipsis (elt : Expr)
  | starExpr (x : Expr)
  | funcType (params : List (List String × Expr)) (results : Option (List (List String × Expr)))
  | mapType (key : Expr) (value : Expr)
  | other (desc : String)

/--
The method `ast.FieldList.NumFields`: the number of names in a field list, where
an anonymous field (no names) counts as one.
-/
def numFields (fs : List (List String × Expr)) : Nat :=
  fs.foldl (fun n f => n + max 1 f.1.length) 0

/--
Go slice creation `make([]string, n)` followed by assignments at indices `0..len(xs)-1`:
the computed strings, padded with empty strings up to length `n`
(the Go code sizes the slice by `NumFields` but indexes it by the
field-group position, leaving trailing slots at their zero value when
a group binds several names).
-/
def padTo (n : Nat) (xs : List String) : List String :=
  xs ++ List.replicate (n - xs.length) ""

mutual

/--
The type-signature stringifier `typeOf` (godocjson.go:99-140).
`.error` models a panic: the explicit `panic` of the default branch,
the index-out-of-range on `x.Names[0]` when a field has no names, and
the nil-pointer dereference on `x.Results.List` when a function type
has a nil result list.
-/
def typeOf : Expr → Except String String
  | .ident name => .ok name
  | .arrayType elt => do
      let s ← typeOf elt
      return "[]" ++ s
  | .field names ty =>
      match names with
      | [] => .error "runtime error: index out of range [0] with length 0"
      | n :: _ => do
          let s ← typeOf ty
          return n ++ " " ++ s
  | .structType fields => do
      let ss ← typeOfTypes fields
      return "struct\x7b" ++ String.intercalate "," (padTo (numFields fields) ss) ++ "\x7d"
  | .interfaceType methods => do
      let ss ← typeOfTypes methods
      return "interface\x7b" ++ String.intercalate "," (padTo (numFields methods) ss) ++ "\x7d"
  | .selectorExpr x sel => do
      let s ← typeOf x
      return s ++ "." ++ sel
  | .ellipsis elt => do
      let s ← typeOf elt
      return "..." ++ s
  | .starExpr x => do
      let s ← typeOf x
      return "*" ++ s
  | .funcType params results => do
      let ps ← typeOfTypes params
      match results with
      | none =>
          -- `x.Results.NumFields()` is nil-safe (returns 0), but the
          -- subsequent `range x.Results.List` dereferences the nil
          -- pointer and panics.
          .error "runtime error: invalid memory address or nil pointer dereference"
      | some rfs => do
          let rs ← typeOfTypes rfs
          return "func(" ++ String.intercalate "," (padTo (numFields params) ps) ++ ")"
            ++ String.intercalate "," (padTo (numFields rfs) rs)
  | .mapType key value => do
      let ks ← typeOf key
      let vs ← typeOf value
      return "map [" ++ ks ++ "]" ++ vs
  | .other desc => .error ("Unknown type " ++ desc)

/--
The `for i, f := range ...List { out[i] = typeOf(f.Type) }` loops of
the struct, interface and function cases: stringify each field group's
type in order, aborting at the first panic.
-/
def typeOfTypes : List (List String × Expr) → Except String (List String)
  | [] => .ok []
  | f :: fs => do
      let s ← typeOf f.2
      let ss ← typeOfTypes fs
      return s :: ss

end

/-- Record `FuncParam` (godocjson.go:94-97): one (type string, name) pair. -/
structure FuncParam where
  type : String
  name : String
deriving Repr, DecidableEq

/--
The flattener `processFuncDecl` (godocjson.go:142-154), applied to the declaration's
parameter field list `d.Type.Params.List`: for each parameter group,
stringify its type once, then emit one `FuncParam` per declared name,
in source order.  An abort of the stringifier propagates.
-/
def processFuncDecl : List (List String × Expr) → Except String (List FuncParam)
  | [] => .ok []
  | f :: fs => do
      let t ← typeOf f.2
      let rest ← processFuncDecl fs
      return f.1.map (fun name => { type := t, name := name }) ++ rest

/-- A source position as returned by `token.FileSet.Position`. -/
structure Position where
  filename : String
  line : Nat
deriving Repr, DecidableEq

/--
A file set `token.FileSet` (external collaborator): modelled as the position
lookup it provides, from a token offset to a filename/line pair.
-/
def FileSet : Type := Nat → Position

/--
The part of an `ast.FuncDecl` that the copier reads: its token
position (`Decl.Pos()`) and its parameter field list
(`Decl.Type.Params.List`).
-/
structure FuncDecl where
  pos : Nat
  params : List (List String × Expr)

/-- The fields of `doc.Func` (input model) read by `CopyFuncs`. -/
structure DocFunc where
  doc : String
  name : String
  orig : String
  recv : String
  decl : FuncDecl

/--
The fields of `doc.Value` (input model) read by `CopyValues`:
`Decl.TokPos` and `Decl.Tok.String()` are flattened into `tokPos` and
`tok`.
-/
structure DocValue where
  doc : String
  names : List String
  tokPos : Nat
  tok : String

/-- The fields of `doc.Note` (input model) read by `CopyPackage`. -/
structure DocNote where
  pos : Nat
  endPos : Nat
  uid : String
  body : String

/-- The fields of `doc.Type` (input model) read by `CopyPackage`. -/
structure DocType where
  doc : String
  name : String
  consts : List DocValue
  vars : List DocValue
  funcs : List DocFunc
  methods : List DocFunc

/--
The fields of `doc.Package` (input model) read by `CopyPackage`.  The
`Notes` map is embedded as an association list from marker to notes.
-/
structure DocPackage where
  doc : String
  name : String
  importPath : String
  imports : List String
  filenames : List String
  notes : List (String × List DocNote)
  bugs : List String
  consts : List DocValue
  types : List DocType
  vars : List DocValue
  funcs : List DocFunc

/-- Output `Func` record (godocjson.go:17-33). -/
structure Func where
  doc : String
  name : String
  packageName : String
  packageImportPath : String
  type : String
  filename : String
  line : Nat
  params : List FuncParam
  recv : String
  orig : String
deriving Repr, DecidableEq

/-- Output `Value` record (godocjson.go:81-91). -/
structure Value where
  packageName : String
  packageImportPath : String
  doc : String
  names : List String
  type : String
  filename : String
  line : Nat
deriving Repr, DecidableEq

/-- Output `Note` record (godocjson.go:55-61); `End` is `endPos`. -/
structure Note where
  pos : Nat
  endPos : Nat
  uid : String
  body : String
deriving Repr, DecidableEq

/-- Output `Type` record (godocjson.go:63-79); `Type` is a reserved
word in Lean, hence `Type'`. -/
structure Type' where
  packageName : String
  packageImportPath : String
  doc : String
  name : String
  type : String
  filename : String
  line : Nat
  consts : List Value
  vars : List Value
  funcs : List Func
  methods : List Func
deriving Repr, DecidableEq

/-- Output `Package` record (godocjson.go:35-53). -/
structure Package where
  type : String
  doc : String
  name : String
  importPath : String
  imports : List String
  filenames : List String
  notes : List (String × List Note)
  bugs : List String
  consts : List Value
  types : List Type'
  vars : List Value
  funcs : List Func
deriving Repr, DecidableEq

/--
The copier stage `CopyFuncs` (godocjson.go:157-175): per input `doc.Func`, look up its
declaration's position, build the output record, and flatten its
parameter list via `processFuncDecl` (whose abort propagates).
-/
def CopyFuncs (f : List DocFunc) (packageName : String) (packageImportPath : String)
    (fileSet : FileSet) : Except String (List Func) :=
  match f with
  | [] => .ok []
  | n :: rest => do
      let position := fileSet n.decl.pos
      let params ← processFuncDecl n.decl.params
      let others ← CopyFuncs rest packageName packageImportPath fileSet
      return { doc := n.doc
               name := n.name
               packageName := packageName
               packageImportPath := packageImportPath
               type := "func"
               orig := n.orig
               recv := n.recv
               filename := position.filename
               line := position.line
               params := params } :: others

/--
The copier stage `CopyValues` (godocjson.go:177-193): per input `doc.Value`, look up
the declaration's token position and build the output record.  Never
aborts.
-/
def CopyValues (c : List DocValue) (packageName : String) (packageImportPath : String)
    (fileSet : FileSet) : List Value :=
  c.map fun v =>
    let position := fileSet v.tokPos
    { doc := v.doc
      names := v.names
      packageName := packageName
      packageImportPath := packageImportPath
      type := v.tok
      filename := position.filename
      line := position.line }

/-- The notes-copying loop of `CopyPackage` (godocjson.go:207-219). -/
def copyNotes (notes : List (String × List DocNote)) : List (String × List Note) :=
  notes.map fun kv =>
    (kv.1, kv.2.map fun note =>
      { pos := note.pos, endPos := note.endPos, uid := note.uid, body := note.body })

/-- The types-copying loop of `CopyPackage` (godocjson.go:224-237). -/
def copyTypes (ts : List DocType) (packageName : String) (packageImportPath : String)
    (fileSet : FileSet) : Except String (List Type') :=
  match ts with
  | [] => .ok []
  | t :: rest => do
      let consts := CopyValues t.consts packageName packageImportPath fileSet
      let funcs ← CopyFuncs t.funcs packageName packageImportPath fileSet
      let methods ← CopyFuncs t.methods packageName packageImportPath fileSet
      let vars := CopyValues t.vars packageName packageImportPath fileSet
      let others ← copyTypes rest packageName packageImportPath fileSet
      return { name := t.name
               packageName := packageName
               packageImportPath := packageImportPath
               type := "type"
               consts := consts
               doc := t.doc
               funcs := funcs
               methods := methods
               vars := vars
               filename := ""
               line := 0 } :: others

/--
The copier stage `CopyPackage` (godocjson.go:196-241): project a `doc.Package` into the
output model, tagging every nested record with the package's name
and import path.  An abort of the stringifier (reached through
`CopyFuncs`) propagates.
-/
def CopyPackage (pkg : DocPackage) (fileSet : FileSet) : Except String Package := do
  let notes := copyNotes pkg.notes
  let consts := CopyValues pkg.consts pkg.name pkg.importPath fileSet
  let funcs ← CopyFuncs pkg.funcs pkg.name pkg.importPath fileSet
  let types ← copyTypes pkg.types pkg.name pkg.importPath fileSet
  let vars := CopyValues pkg.vars pkg.name pkg.importPath fileSet
  return { type := "package"
           doc := pkg.doc
           name := pkg.name
           importPath := pkg.importPath
           imports := pkg.imports
           filenames := pkg.filenames
           bugs := pkg.bugs
           notes := notes
           consts := consts
           funcs := funcs
           types := types
           vars := vars }

/--
The package-processing tail of `main` (godocjson.go:287-298): after
parsing, the driver panics if more than one package was found
("Multiple packages found in directory!"); otherwise it copies each
package and emits one JSON document per package.  JSON encoding is an
external collaborator, so the emitted documents are modelled as the
copied `Package` values.
-/
def processPackages (pkgs : List DocPackage) (fileSet : FileSet) :
    Except String (List Package) :=
  if pkgs.length > 1 then
    .error "Multiple packages found in directory!\n"
  else
    pkgs.mapM fun pkg => CopyPackage pkg fileSet

/-!
## Heap-instrumented copier

Go passes the input model by pointer, so "never mutates the input
model" is a statement about the heap: every assignment the copier
performs targets a record it allocated itself.  The following variant
of the copier makes allocations and pointer writes explicit: a `Heap`
maps addresses to allocated output records, the input model occupies
addresses below `Heap.next` (like every object allocated before the
call), `&Func{...}` becomes `Heap.alloc`, and the mutation of
`fun.Params` inside `processFuncDecl` becomes `Heap.write` to the
freshly allocated record's address.
-/

/-- The heap-level type record: like `Type'`, but its associated
declarations are pointers (`[]*Value`, `[]*Func`), i.e. addresses. -/
structure TypeH where
  packageName : String
  packageImportPath : String
  doc : String
  name : String
  type : String
  consts : List Nat
  vars : List Nat
  funcs : List Nat
  methods : List Nat

/-- The heap-level package value (`newPkg` is a stack value in Go; its
declaration lists hold pointers, i.e. addresses). -/
structure PackageH where
  type : String
  doc : String
  name : String
  importPath : String
  imports : List String
  filenames : List String
  notes : List (String × List Nat)
  bugs : List String
  consts : List Nat
  types : List Nat
  vars : List Nat
  funcs : List Nat

/-- A heap object: one of the record kinds the copier allocates. -/
inductive Obj where
  | funcObj (f : Func)
  | valueObj (v : Value)
  | noteObj (n : Note)
  | typeObj (t : TypeH)

/-- A heap: an allocation bound (fresh addresses are `≥ next`) and the
contents of each allocated address. -/
structure Heap where
  next : Nat
  mem : Nat → Option Obj

/-- Allocation `&T{...}`: create a new object at a fresh address. -/
def Heap.alloc (h : Heap) (o : Obj) : Nat × Heap :=
  (h.next, ⟨h.next + 1, fun b => if b = h.next then some o else h.mem b⟩)

/-- An assignment through a pointer: overwrite the object at `a`. -/
def Heap.write (h : Heap) (a : Nat) (o : Obj) : Heap :=
  ⟨h.next, fun b => if b = a then some o else h.mem b⟩

/--
The loop of `processFuncDecl` at the heap level: per parameter group,
stringify the type (a panic aborts with the writes made so far kept),
then append one pair per name — each `append` assigns `fun.Params`
through the pointer `a`.
-/
def processFuncDeclLoop (a : Nat) (base : Func) (groups : List (List String × Expr))
    (acc : List FuncParam) (h : Heap) : Except String Unit × Heap :=
  match groups with
  | [] => (.ok (), h)
  | f :: fs =>
      match typeOf f.2 with
      | .error e => (.error e, h)
      | .ok t =>
          processFuncDeclLoop a base fs
            (acc ++ f.1.map fun name => { type := t, name := name })
            (h.write a (.funcObj
              { base with params := acc ++ f.1.map fun name => { type := t, name := name } }))

/--
Heap-level `processFuncDecl(d, fun)`, where `fun` is the record
at address `a`: first `fun.Params = make([]FuncParam, 0)` (a write of
the empty list), then the group loop.
-/
def processFuncDeclH (a : Nat) (base : Func) (groups : List (List String × Expr))
    (h : Heap) : Except String Unit × Heap :=
  processFuncDeclLoop a base groups [] (h.write a (.funcObj { base with params := [] }))

/-- The `&Func{...}` literal of `CopyFuncs` (godocjson.go:161-171),
with `Params` still at its zero value. -/
def funcRecordH (n : DocFunc) (packageName : String) (packageImportPath : String)
    (fileSet : FileSet) : Func :=
  { doc := n.doc
    name := n.name
    packageName := packageName
    packageImportPath := packageImportPath
    type := "func"
    orig := n.orig
    recv := n.recv
    filename := (fileSet n.decl.pos).filename
    line := (fileSet n.decl.pos).line
    params := [] }

/--
Heap-level `CopyFuncs`: per input function, allocate the output
record (`newFuncs[i] = &Func{...}`, with `Params` still at its zero
value), then let `processFuncDecl` fill its parameter list in place.
-/
def CopyFuncsH (f : List DocFunc) (packageName : String) (packageImportPath : String)
    (fileSet : FileSet) (h : Heap) : Except String (List Nat) × Heap :=
  match f with
  | [] => (.ok [], h)
  | n :: rest =>
      let ah := h.alloc (.funcObj (funcRecordH n packageName packageImportPath fileSet))
      let pf := processFuncDeclH ah.1 (funcRecordH n packageName packageImportPath fileSet)
        n.decl.params ah.2
      match pf.1 with
      | .error e => (.error e, pf.2)
      | .ok _ =>
          let cf := CopyFuncsH rest packageName packageImportPath fileSet pf.2
          match cf.1 with
          | .error e => (.error e, cf.2)
          | .ok as => (.ok (ah.1 :: as), cf.2)

/-- Heap-level `CopyValues`: allocate one `Value` record per
input value (`newConsts[i] = &Value{...}`). -/
def CopyValuesH (c : List DocValue) (packageName : String) (packageImportPath : String)
    (fileSet : FileSet) (h : Heap) : List Nat × Heap :=
  match c with
  | [] => ([], h)
  | v :: rest =>
      let position := fileSet v.tokPos
      let ah := h.alloc (.valueObj
        { doc := v.doc
          names := v.names
          packageName := packageName
          packageImportPath := packageImportPath
          type := v.tok
          filename := position.filename
          line := position.line })
      let rh := CopyValuesH rest packageName packageImportPath fileSet ah.2
      (ah.1 :: rh.1, rh.2)

/-- The inner notes loop at the heap level (`notes[i] = &Note{...}`). -/
def allocNotesH (ns : List DocNote) (h : Heap) : List Nat × Heap :=
  match ns with
  | [] => ([], h)
  | note :: rest =>
      let ah := h.alloc (.noteObj
        { pos := note.pos, endPos := note.endPos, uid := note.uid, body := note.body })
      let rh := allocNotesH rest ah.2
      (ah.1 :: rh.1, rh.2)

/-- The notes map loop of `CopyPackage` at the heap level. -/
def copyNotesH (notes : List (String × List DocNote)) (h : Heap) :
    List (String × List Nat) × Heap :=
  match notes with
  | [] => ([], h)
  | kv :: rest =>
      let ah := allocNotesH kv.2 h
      let rh := copyNotesH rest ah.2
      ((kv.1, ah.1) :: rh.1, rh.2)

/-- The types loop of `CopyPackage` at the heap level
(`newPkg.Types[i] = &Type{...}`). -/
def copyTypesH (ts : List DocType) (packageName : String) (packageImportPath : String)
    (fileSet : FileSet) (h : Heap) : Except String (List Nat) × Heap :=
  match ts with
  | [] => (.ok [], h)
  | t :: rest =>
      let cs := CopyValuesH t.consts packageName packageImportPath fileSet h
      let cf := CopyFuncsH t.funcs packageName packageImportPath fileSet cs.2
      match cf.1 with
      | .error e => (.error e, cf.2)
      | .ok fns =>
          let cm := CopyFuncsH t.methods packageName packageImportPath fileSet cf.2
          match cm.1 with
          | .error e => (.error e, cm.2)
          | .ok ms =>
              let vs := CopyValuesH t.vars packageName packageImportPath fileSet cm.2
              let ah := vs.2.alloc (.typeObj
                { name := t.name
                  packageName := packageName
                  packageImportPath := packageImportPath
                  type := "type"
                  consts := cs.1
                  doc := t.doc
                  funcs := fns
                  methods := ms
                  vars := vs.1 })
              let rh := copyTypesH rest packageName packageImportPath fileSet ah.2
              match rh.1 with
              | .error e => (.error e, rh.2)
              | .ok as => (.ok (ah.1 :: as), rh.2)

/-- Heap-level `CopyPackage`. -/
def CopyPackageH (pkg : DocPackage) (fileSet : FileSet) (h : Heap) :
    Except String PackageH × Heap :=
  let ns := copyNotesH pkg.notes h
  let cs := CopyValuesH pkg.consts pkg.name pkg.importPath fileSet ns.2
  let cf := CopyFuncsH pkg.funcs pkg.name pkg.importPath fileSet cs.2
  match cf.1 with
  | .error e => (.error e, cf.2)
  | .ok funcs =>
      let ct := copyTypesH pkg.types pkg.name pkg.importPath fileSet cf.2
      match ct.1 with
      | .error e => (.error e, ct.2)
      | .ok types =>
          let vs := CopyValuesH pkg.vars pkg.name pkg.importPath fileSet ct.2
          (.ok { type := "package"
                 doc := pkg.doc
                 name := pkg.name
                 importPath := pkg.importPath
                 imports := pkg.imports
                 filenames := pkg.filenames
                 bugs := pkg.bugs
                 notes := ns.1
                 consts := cs.1
                 types := types
                 vars := vs.1
                 funcs := funcs }, vs.2)

/-!
## Helper lemmas
-/

/-- A concrete file set used by closed statements. -/
def fileSet0 : FileSet := fun _ => { filename := "test.go", line := 1 }

theorem typeOfTypes_length (fs : List (List String × Expr)) (ss : List String)
    (h : typeOfTypes fs = .ok ss) : ss.length = fs.length := by
  induction fs generalizing ss with
  | nil =>
      simp [typeOfTypes] at h
      simp [← h]
  | cons f fs ih =>
      rw [typeOfTypes] at h
      cases ht : typeOf f.2 with
      | error e => simp [ht, bind, Except.bind] at h
      | ok t =>
          cases hts : typeOfTypes fs with
          | error e => simp [ht, hts, bind, Except.bind, Functor.map, Except.map] at h
          | ok ts =>
              simp [ht, hts, bind, Except.bind, pure, Except.pure, Functor.map,
                Except.map] at h
              subst h
              simp [ih ts hts]

theorem numFields_foldl (fs : List (List String × Expr)) (n : Nat) :
    fs.foldl (fun n f => n + max 1 f.1.length) n = n + numFields fs := by
  induction fs generalizing n with
  | nil => simp [numFields]
  | cons f fs ih =>
      simp only [numFields, List.foldl_cons]
      rw [ih, ih]
      omega

theorem numFields_eq_length (fs : List (List String × Expr))
    (h : ∀ f ∈ fs, f.1.length ≤ 1) : numFields fs = fs.length := by
  induction fs with
  | nil => simp [numFields]
  | cons f fs ih =>
      have hcons : numFields (f :: fs) = max 1 f.1.length + numFields fs := by
        show List.foldl _ 0 (f :: fs) = _
        rw [List.foldl_cons, numFields_foldl, Nat.zero_add]
      have hf : f.1.length ≤ 1 := h f (by simp)
      have hmax : max 1 f.1.length = 1 := Nat.max_eq_left hf
      have hrest : numFields fs = fs.length := ih fun g hg => h g (by simp [hg])
      rw [hcons, hmax, hrest, List.length_cons]
      omega

theorem padTo_eq_self (n : Nat) (xs : List String) (h : xs.length = n) :
    padTo n xs = xs := by
  simp [padTo, h]

/-!
## Claim theorems
-/

/--
C1, counterexample: at a function-type node with no parameters and the
two result types `int` and `string`, the stringifier returns
`"func()int,string"` — the results are comma-joined — and not the
`"func()intstring"` that concatenation with no separator would give.
-/
theorem funcType_results_not_concatenated :
    typeOf (.funcType [] (some [([], .ident "int"), ([], .ident "string")]))
      = .ok "func()int,string" ∧
    "func()int,string" ≠ "func()intstring" :=
  ⟨rfl, by decide⟩

/--
C1, amended: for every function-type expression node with parameter
types `P1..Pn` and result types `R1..Rm` (each its own unnamed field
group, as in a source-level type literal `func(P1,..,Pn)`), the
stringifier returns
`"func(" ++ join(stringify(Pi),",") ++ ")" ++ join(stringify(Rj),",")`:
parameters and results are both comma-joined
(`strings.Join(results, ",")` in the source, godocjson.go:134).
-/
theorem typeOf_funcType_results_comma_joined (ps rs : List (List String × Expr))
    (pss rss : List String)
    (hp1 : ∀ f ∈ ps, f.1 = ([] : List String))
    (hr1 : ∀ f ∈ rs, f.1 = ([] : List String))
    (hp : typeOfTypes ps = .ok pss) (hr : typeOfTypes rs = .ok rss) :
    typeOf (.funcType ps (some rs)) =
      .ok ("func(" ++ String.intercalate "," pss ++ ")" ++ String.intercalate "," rss) := by
  have hplen : pss.length = numFields ps := by
    rw [typeOfTypes_length ps pss hp,
      numFields_eq_length ps (fun f hf => by simp [hp1 f hf])]
  have hrlen : rss.length = numFields rs := by
    rw [typeOfTypes_length rs rss hr,
      numFields_eq_length rs (fun f hf => by simp [hr1 f hf])]
  rw [typeOf]
  simp [hp, hr, bind, Except.bind, pure, Except.pure]
  rw [padTo_eq_self _ _ hplen, padTo_eq_self _ _ hrlen]

/-- C1, witness: the amended theorem at `func(int) (string, bool)`. -/
theorem typeOf_funcType_results_comma_joined_witness :
    typeOf (.funcType [([], .ident "int")]
        (some [([], .ident "string"), ([], .ident "bool")]))
      = .ok "func(int)string,bool" :=
  typeOf_funcType_results_comma_joined _ _ ["int"] ["string", "bool"]
    (by decide) (by decide) rfl rfl

/--
C2, counterexample: at a struct-type node with the single field
`x int`, the stringifier returns `"struct{int}"` — the declared field
name is dropped, because the struct case recurses on `f.Type` rather
than on the field node — and not the `"struct{x int}"` the claim
describes.
-/
theorem structType_drops_field_names :
    typeOf (.structType [(["x"], .ident "int")]) = .ok "struct{int}" ∧
    "struct{int}" ≠ "struct{x int}" :=
  ⟨rfl, by decide⟩

/--
C2, amended: for every struct-type expression node whose fields each
bind exactly one name, the stringifier returns
`"struct{" ++ join(...,",") ++ "}"` where each joined element is the
stringification of the field's type only — the field names do not
appear (godocjson.go:110 stringifies `f.Type`, not the field).
-/
theorem typeOf_structType_field_types_only (fields : List (List String × Expr))
    (ss : List String)
    (h1 : ∀ f ∈ fields, f.1.length = 1)
    (h2 : typeOfTypes fields = .ok ss) :
    typeOf (.structType fields) = .ok ("struct\x7b" ++ String.intercalate "," ss ++ "\x7d") := by
  have hlen : ss.length = numFields fields := by
    rw [typeOfTypes_length fields ss h2,
      numFields_eq_length fields (fun f hf => by simp [h1 f hf])]
  rw [typeOf]
  simp [h2, bind, Except.bind, pure, Except.pure]
  rw [padTo_eq_self _ _ hlen]

/-- C2, witness: the amended theorem at `struct{x int; y string}`. -/
theorem typeOf_structType_field_types_only_witness :
    typeOf (.structType [(["x"], .ident "int"), (["y"], .ident "string")])
      = .ok "struct{int,string}" :=
  typeOf_structType_field_types_only _ ["int", "string"] (by decide) rfl

/--
C3: the claim says the copier succeeds on every well-formed input
model whose parameter types are in the enumerated variant set,
explicitly including a parameter of type `func()`.  The code does not:
for a function type with no declared results, `ast.FuncType.Results`
is nil, and while `x.Results.NumFields()` is nil-safe,
`range x.Results.List` (godocjson.go:131) dereferences the nil pointer
and panics.  This theorem evaluates the copier at that failing input:
a single function `F` with one parameter `x func()`.
-/
theorem copyFuncs_nil_results_aborts :
    CopyFuncs [{ doc := "", name := "F", orig := "", recv := "",
                 decl := { pos := 0, params := [(["x"], .funcType [] none)] } }]
        "p" "example.com/p" fileSet0
      = .error "runtime error: invalid memory address or nil pointer dereference" :=
  rfl

/--
C6: for every type-expression node whose variant is outside the
enumerated set (modelled by the `other` constructor, carrying the
`%+v` rendering of the node), the stringifier aborts fatally with a
diagnostic identifying the unhandled variant
(`panic("Unknown type %+v")`, godocjson.go:138) and never returns a
string.
-/
theorem typeOf_unknown_variant_fatal (d : String) :
    typeOf (.other d) = .error ("Unknown type " ++ d) ∧
    ∀ s : String, typeOf (.other d) ≠ .ok s := by
  refine ⟨rfl, fun s h => ?_⟩
  simp [typeOf] at h

/--
C7: for every map-type expression node with key `K` and value `V`
whose stringifications succeed, the stringifier returns
`"map [" ++ stringify(K) ++ "]" ++ stringify(V)`, with the space
between `map` and the opening bracket (godocjson.go:136).
-/
theorem typeOf_mapType_space (k v : Expr) (ks vs : String)
    (hk : typeOf k = .ok ks) (hv : typeOf v = .ok vs) :
    typeOf (.mapType k v) = .ok ("map [" ++ ks ++ "]" ++ vs) := by
  rw [typeOf]
  simp [hk, hv, bind, Except.bind, pure, Except.pure]

/-- C7, witness: the theorem at `map[string]int`. -/
theorem typeOf_mapType_space_witness :
    typeOf (.mapType (.ident "string") (.ident "int")) = .ok "map [string]int" :=
  typeOf_mapType_space _ _ "string" "int" rfl rfl

/--
C10: applied directly to a field node, the stringifier uses only the
first declared name — the result does not depend on the remaining
names `ns` — and a field node with an empty name list aborts fatally
(`x.Names[0]` indexes an empty slice, godocjson.go:106) instead of
producing a string.
-/
theorem typeOf_field_first_name_only :
    (∀ (n : String) (ns : List String) (ty : Expr) (t : String),
        typeOf ty = .ok t → typeOf (.field (n :: ns) ty) = .ok (n ++ " " ++ t)) ∧
    (∀ ty : Expr, typeOf (.field [] ty) =
        .error "runtime error: index out of range [0] with length 0") := by
  constructor
  · intro n ns ty t ht
    rw [typeOf]
    simp [ht, bind, Except.bind, pure, Except.pure]
  · intro ty
    rw [typeOf]

/-- C10, witness: the field `a, b int` stringifies to `"a int"`, and an
anonymous field aborts. -/
theorem typeOf_field_first_name_only_witness :
    typeOf (.field ["a", "b"] (.ident "int")) = .ok "a int" ∧
    typeOf (.field [] (.ident "int")) =
      .error "runtime error: index out of range [0] with length 0" :=
  ⟨typeOf_field_first_name_only.1 "a" ["b"] (.ident "int") "int" rfl,
   typeOf_field_first_name_only.2 (.ident "int")⟩

/--
C4: for every parameter field list whose group types all stringify
successfully (group `i` stringifying to `ts[i]`), `processFuncDecl`
flattens the groups in source order, expanding a group binding one
type to N names into N individual (type-string, name) pairs in source
order, with the group's single type string shared by all its names.
-/
theorem processFuncDecl_expands_groups (fs : List (List String × Expr)) (ts : List String)
    (h : typeOfTypes fs = .ok ts) :
    processFuncDecl fs =
      .ok ((fs.zip ts).flatMap fun p => p.1.1.map fun n => { type := p.2, name := n }) := by
  induction fs generalizing ts with
  | nil =>
      simp [typeOfTypes] at h
      simp [processFuncDecl, ← h]
  | cons f fs ih =>
      rw [typeOfTypes] at h
      rw [processFuncDecl]
      cases ht : typeOf f.2 with
      | error e => simp [ht, bind, Except.bind] at h
      | ok t =>
          cases hts : typeOfTypes fs with
          | error e => simp [ht, hts, bind, Except.bind, Functor.map, Except.map] at h
          | ok ts2 =>
              simp [ht, hts, bind, Except.bind, pure, Except.pure, Functor.map,
                Except.map] at h
              subst h
              simp [ht, ih ts2 hts, bind, Except.bind, pure, Except.pure]

/-- C4, witness: the groups `(a, b int, c string)` flatten to
`[(int,a),(int,b),(string,c)]`. -/
theorem processFuncDecl_expands_groups_witness :
    processFuncDecl [(["a", "b"], .ident "int"), (["c"], .ident "string")] =
      .ok [{ type := "int", name := "a" }, { type := "int", name := "b" },
           { type := "string", name := "c" }] :=
  processFuncDecl_expands_groups _ ["int", "string"] rfl

/-- A minimal concrete input package, used by closed statements. -/
def docPackage0 : DocPackage :=
  { doc := "", name := "p", importPath := "example.com/p", imports := [],
    filenames := [], notes := [], bugs := [], consts := [], types := [],
    vars := [], funcs := [] }

/-- A second concrete input package with a different name. -/
def docPackage1 : DocPackage := { docPackage0 with name := "q" }

/--
C8: whenever the target directory parses into more than one distinct
package, the driver aborts with the fatal ambiguity panic
`"Multiple packages found in directory!"` (godocjson.go:287-289)
before copying any package, so no JSON document is produced.
-/
theorem processPackages_multiple_packages_fatal (pkgs : List DocPackage)
    (fileSet : FileSet) (h : 1 < pkgs.length) :
    processPackages pkgs fileSet = .error "Multiple packages found in directory!\n" := by
  simp [processPackages, h]

/-- C8, witness: two packages `p` and `q` in one directory. -/
theorem processPackages_multiple_packages_fatal_witness :
    processPackages [docPackage0, docPackage1] fileSet0
      = .error "Multiple packages found in directory!\n" :=
  processPackages_multiple_packages_fatal _ _ (by simp)

theorem copyValues_tags (c : List DocValue) (pn pip : String) (fs : FileSet) :
    ∀ v ∈ CopyValues c pn pip fs, v.packageName = pn ∧ v.packageImportPath = pip := by
  intro v hv
  simp [CopyValues, List.mem_map] at hv
  obtain ⟨w, hw, rfl⟩ := hv
  exact ⟨rfl, rfl⟩

theorem copyFuncs_tags (f : List DocFunc) (pn pip : String) (fs : FileSet)
    (out : List Func) (h : CopyFuncs f pn pip fs = .ok out) :
    ∀ g ∈ out, g.packageName = pn ∧ g.packageImportPath = pip := by
  induction f generalizing out with
  | nil =>
      simp [CopyFuncs] at h
      subst h
      intro g hg
      simp at hg
  | cons n rest ih =>
      rw [CopyFuncs] at h
      cases hp : processFuncDecl n.decl.params with
      | error e => simp [hp, bind, Except.bind] at h
      | ok params =>
          cases hr : CopyFuncs rest pn pip fs with
          | error e => simp [hp, hr, bind, Except.bind] at h
          | ok others =>
              simp [hp, hr, bind, Except.bind, pure, Except.pure] at h
              subst h
              intro g hg
              rcases List.mem_cons.mp hg with hg | hg
              · subst hg
                exact ⟨rfl, rfl⟩
              · exact ih others hr g hg

theorem copyTypes_tags (ts : List DocType) (pn pip : String) (fs : FileSet)
    (out : List Type') (h : copyTypes ts pn pip fs = .ok out) :
    ∀ t ∈ out,
      (t.packageName = pn ∧ t.packageImportPath = pip) ∧
      (∀ v ∈ t.consts, v.packageName = pn ∧ v.packageImportPath = pip) ∧
      (∀ v ∈ t.vars, v.packageName = pn ∧ v.packageImportPath = pip) ∧
      (∀ g ∈ t.funcs, g.packageName = pn ∧ g.packageImportPath = pip) ∧
      (∀ g ∈ t.methods, g.packageName = pn ∧ g.packageImportPath = pip) := by
  induction ts generalizing out with
  | nil =>
      simp [copyTypes] at h
      subst h
      intro t ht
      simp at ht
  | cons t rest ih =>
      rw [copyTypes] at h
      cases hf : CopyFuncs t.funcs pn pip fs with
      | error e => simp [hf, bind, Except.bind] at h
      | ok fns =>
          cases hm : CopyFuncs t.methods pn pip fs with
          | error e => simp [hf, hm, bind, Except.bind] at h
          | ok ms =>
              cases hr : copyTypes rest pn pip fs with
              | error e => simp [hf, hm, hr, bind, Except.bind] at h
              | ok others =>
                  simp [hf, hm, hr, bind, Except.bind, pure, Except.pure] at h
                  subst h
                  intro ty hty
                  rcases List.mem_cons.mp hty with hty | hty
                  · subst hty
                    refine ⟨⟨rfl, rfl⟩, ?_, ?_, ?_, ?_⟩
                    · exact copyValues_tags t.consts pn pip fs
                    · exact copyValues_tags t.vars pn pip fs
                    · exact copyFuncs_tags t.funcs pn pip fs fns hf
                    · exact copyFuncs_tags t.methods pn pip fs ms hm
                  · exact ih others hr ty hty

/--
C5: for every package the copier copies successfully, every nested
output `Func`, `Type` and `Value` record — including a `Type`'s
associated consts, vars, funcs and methods — carries the enclosing
package's own name and import
path in its `packageName` and `packageImportPath` fields.
-/
theorem copyPackage_tags_owning_package (pkg : DocPackage) (fileSet : FileSet)
    (out : Package) (h : CopyPackage pkg fileSet = .ok out) :
    (∀ g ∈ out.funcs, g.packageName = pkg.name ∧ g.packageImportPath = pkg.importPath) ∧
    (∀ v ∈ out.consts, v.packageName = pkg.name ∧ v.packageImportPath = pkg.importPath) ∧
    (∀ v ∈ out.vars, v.packageName = pkg.name ∧ v.packageImportPath = pkg.importPath) ∧
    (∀ t ∈ out.types,
      (t.packageName = pkg.name ∧ t.packageImportPath = pkg.importPath) ∧
      (∀ v ∈ t.consts, v.packageName = pkg.name ∧ v.packageImportPath = pkg.importPath) ∧
      (∀ v ∈ t.vars, v.packageName = pkg.name ∧ v.packageImportPath = pkg.importPath) ∧
      (∀ g ∈ t.funcs, g.packageName = pkg.name ∧ g.packageImportPath = pkg.importPath) ∧
      (∀ g ∈ t.methods, g.packageName = pkg.name ∧ g.packageImportPath = pkg.importPath)) := by
  simp only [CopyPackage] at h
  cases hf : CopyFuncs pkg.funcs pkg.name pkg.importPath fileSet with
  | error e => simp [hf, bind, Except.bind] at h
  | ok funcs =>
      cases hty : copyTypes pkg.types pkg.name pkg.importPath fileSet with
      | error e => simp [hf, hty, bind, Except.bind] at h
      | ok types =>
          simp [hf, hty, bind, Except.bind, pure, Except.pure] at h
          subst h
          refine ⟨?_, ?_, ?_, ?_⟩
          · exact copyFuncs_tags pkg.funcs pkg.name pkg.importPath fileSet funcs hf
          · exact copyValues_tags pkg.consts pkg.name pkg.importPath fileSet
          · exact copyValues_tags pkg.vars pkg.name pkg.importPath fileSet
          · exact copyTypes_tags pkg.types pkg.name pkg.importPath fileSet types hty

/-- A concrete input function `Add(a, b int)` with a doc comment. -/
def docFunc0 : DocFunc :=
  { doc := "Add adds.", name := "Add", orig := "", recv := "",
    decl := { pos := 3, params := [(["a", "b"], .ident "int")] } }

/-- A concrete input constant group `const A, B`. -/
def docValue0 : DocValue :=
  { doc := "", names := ["A", "B"], tokPos := 5, tok := "const" }

/-- A concrete input type `T` with an associated constant and function. -/
def docType0 : DocType :=
  { doc := "", name := "T", consts := [docValue0], vars := [],
    funcs := [docFunc0], methods := [] }

/-- A concrete input package with one constant group, one type, one
variable group and one function. -/
def docPackage2 : DocPackage :=
  { docPackage0 with
      consts := [docValue0]
      types := [docType0]
      vars := [docValue0]
      funcs := [docFunc0] }

/-- The output `Value` record the copier produces for `docValue0`. -/
def value2 : Value :=
  { packageName := "p", packageImportPath := "example.com/p", doc := "",
    names := ["A", "B"], type := "const", filename := "test.go", line := 1 }

/-- The output `Func` record the copier produces for `docFunc0`. -/
def func2 : Func :=
  { doc := "Add adds.", name := "Add", packageName := "p",
    packageImportPath := "example.com/p", type := "func", filename := "test.go",
    line := 1,
    params := [{ type := "int", name := "a" }, { type := "int", name := "b" }],
    recv := "", orig := "" }

/-- The output `Type` record the copier produces for `docType0`. -/
def type2 : Type' :=
  { packageName := "p", packageImportPath := "example.com/p", doc := "",
    name := "T", type := "type", filename := "", line := 0, consts := [value2],
    vars := [], funcs := [func2], methods := [] }

/-- The output package the copier produces for `docPackage2`. -/
def package2 : Package :=
  { type := "package", doc := "", name := "p", importPath := "example.com/p",
    imports := [], filenames := [], notes := [], bugs := [], consts := [value2],
    types := [type2], vars := [value2], funcs := [func2] }

/-- C5, witness: the tagging theorem at the concrete package
`docPackage2`, whose copy is `package2`. -/
theorem copyPackage_tags_owning_package_witness :
    (∀ g ∈ package2.funcs,
      g.packageName = docPackage2.name ∧ g.packageImportPath = docPackage2.importPath) ∧
    (∀ v ∈ package2.consts,
      v.packageName = docPackage2.name ∧ v.packageImportPath = docPackage2.importPath) ∧
    (∀ v ∈ package2.vars,
      v.packageName = docPackage2.name ∧ v.packageImportPath = docPackage2.importPath) ∧
    (∀ t ∈ package2.types,
      (t.packageName = docPackage2.name ∧ t.packageImportPath = docPackage2.importPath) ∧
      (∀ v ∈ t.consts,
        v.packageName = docPackage2.name ∧ v.packageImportPath = docPackage2.importPath) ∧
      (∀ v ∈ t.vars,
        v.packageName = docPackage2.name ∧ v.packageImportPath = docPackage2.importPath) ∧
      (∀ g ∈ t.funcs,
        g.packageName = docPackage2.name ∧ g.packageImportPath = docPackage2.importPath) ∧
      (∀ g ∈ t.methods,
        g.packageName = docPackage2.name ∧ g.packageImportPath = docPackage2.importPath)) :=
  copyPackage_tags_owning_package docPackage2 fileSet0 package2 rfl

/-!
## Frame property of the copier

Every object that exists before `CopyPackageH` runs — in particular
the entire input documentation model — lives at an address below
`h.next`.  The lemmas below show each piece of the copier only ever
writes to addresses it allocated itself, so all pre-existing
addresses are left untouched.
-/

theorem alloc_fst (h : Heap) (o : Obj) : (h.alloc o).1 = h.next := rfl

theorem alloc_next (h : Heap) (o : Obj) : (h.alloc o).2.next = h.next + 1 := rfl

theorem alloc_mem_lt (h : Heap) (o : Obj) (a : Nat) (ha : a < h.next) :
    (h.alloc o).2.mem a = h.mem a := by
  show (if a = h.next then some o else h.mem a) = h.mem a
  rw [if_neg (by omega)]

theorem write_next (h : Heap) (a : Nat) (o : Obj) : (h.write a o).next = h.next := rfl

theorem write_mem_ne (h : Heap) (a b : Nat) (o : Obj) (hne : b ≠ a) :
    (h.write a o).mem b = h.mem b := by
  show (if b = a then some o else h.mem b) = h.mem b
  rw [if_neg hne]

theorem processFuncDeclLoop_frame (a : Nat) (base : Func)
    (groups : List (List String × Expr)) (acc : List FuncParam) (h : Heap) :
    (processFuncDeclLoop a base groups acc h).2.next = h.next ∧
    ∀ b, b ≠ a → (processFuncDeclLoop a base groups acc h).2.mem b = h.mem b := by
  induction groups generalizing acc h with
  | nil => exact ⟨rfl, fun b _ => rfl⟩
  | cons f fs ih =>
      rw [processFuncDeclLoop]
      cases ht : typeOf f.2 with
      | error e => exact ⟨rfl, fun b _ => rfl⟩
      | ok t =>
          obtain ⟨hn, hm⟩ := ih (acc ++ f.1.map fun name => { type := t, name := name })
            (h.write a (.funcObj
              { base with params := acc ++ f.1.map fun name => { type := t, name := name } }))
          exact ⟨by rw [hn, write_next],
            fun b hb => by rw [hm b hb, write_mem_ne _ _ _ _ hb]⟩

theorem processFuncDeclH_frame (a : Nat) (base : Func)
    (groups : List (List String × Expr)) (h : Heap) :
    (processFuncDeclH a base groups h).2.next = h.next ∧
    ∀ b, b ≠ a → (processFuncDeclH a base groups h).2.mem b = h.mem b := by
  obtain ⟨hn, hm⟩ := processFuncDeclLoop_frame a base groups []
    (h.write a (.funcObj { base with params := [] }))
  exact ⟨by rw [processFuncDeclH, hn, write_next],
    fun b hb => by rw [processFuncDeclH, hm b hb, write_mem_ne _ _ _ _ hb]⟩

theorem CopyFuncsH_frame (f : List DocFunc) (pn pip : String) (fs : FileSet) (h : Heap) :
    h.next ≤ (CopyFuncsH f pn pip fs h).2.next ∧
    ∀ b, b < h.next → (CopyFuncsH f pn pip fs h).2.mem b = h.mem b := by
  induction f generalizing h with
  | nil => exact ⟨Nat.le_refl _, fun b _ => rfl⟩
  | cons n rest ih =>
      obtain ⟨hpn, hpm⟩ := processFuncDeclH_frame
        ((h.alloc (.funcObj (funcRecordH n pn pip fs))).1)
        (funcRecordH n pn pip fs) n.decl.params
        ((h.alloc (.funcObj (funcRecordH n pn pip fs))).2)
      rw [CopyFuncsH]
      split
      · constructor
        · rw [hpn, alloc_next]
          omega
        · intro b hb
          rw [hpm b (by rw [alloc_fst]; omega), alloc_mem_lt _ _ _ hb]
      · obtain ⟨hcn, hcm⟩ := ih
          ((processFuncDeclH ((h.alloc (.funcObj (funcRecordH n pn pip fs))).1)
            (funcRecordH n pn pip fs) n.decl.params
            ((h.alloc (.funcObj (funcRecordH n pn pip fs))).2)).2)
        dsimp only
        constructor
        · split
          all_goals
            refine Nat.le_trans ?_ hcn
            rw [hpn, alloc_next]
            omega
        · intro b hb
          split
          all_goals
            rw [hcm b (by rw [hpn, alloc_next]; omega)]
            rw [hpm b (by rw [alloc_fst]; omega), alloc_mem_lt _ _ _ hb]

theorem alloc_then_frame {α : Type} (g : Heap → α × Heap) (o : Obj) (h : Heap)
    (hg : ∀ hh : Heap, hh.next ≤ (g hh).2.next ∧
      ∀ b, b < hh.next → (g hh).2.mem b = hh.mem b) :
    h.next ≤ (g (h.alloc o).2).2.next ∧
    ∀ b, b < h.next → (g (h.alloc o).2).2.mem b = h.mem b := by
  obtain ⟨hn, hm⟩ := hg ((h.alloc o).2)
  constructor
  · exact Nat.le_trans (by rw [alloc_next]; omega) hn
  · intro b hb
    rw [hm b (by rw [alloc_next]; omega), alloc_mem_lt _ _ _ hb]

theorem CopyValuesH_frame (c : List DocValue) (pn pip : String) (fs : FileSet) (h : Heap) :
    h.next ≤ (CopyValuesH c pn pip fs h).2.next ∧
    ∀ b, b < h.next → (CopyValuesH c pn pip fs h).2.mem b = h.mem b := by
  induction c generalizing h with
  | nil => exact ⟨Nat.le_refl _, fun b _ => rfl⟩
  | cons v rest ih =>
      rw [CopyValuesH]
      dsimp only
      exact alloc_then_frame (CopyValuesH rest pn pip fs) _ h ih

theorem allocNotesH_frame (ns : List DocNote) (h : Heap) :
    h.next ≤ (allocNotesH ns h).2.next ∧
    ∀ b, b < h.next → (allocNotesH ns h).2.mem b = h.mem b := by
  induction ns generalizing h with
  | nil => exact ⟨Nat.le_refl _, fun b _ => rfl⟩
  | cons note rest ih =>
      rw [allocNotesH]
      dsimp only
      exact alloc_then_frame (fun hh => allocNotesH rest hh) _ h ih

theorem copyNotesH_frame (notes : List (String × List DocNote)) (h : Heap) :
    h.next ≤ (copyNotesH notes h).2.next ∧
    ∀ b, b < h.next → (copyNotesH notes h).2.mem b = h.mem b := by
  induction notes generalizing h with
  | nil => exact ⟨Nat.le_refl _, fun b _ => rfl⟩
  | cons kv rest ih =>
      rw [copyNotesH]
      dsimp only
      obtain ⟨n1, m1⟩ := allocNotesH_frame kv.2 h
      obtain ⟨n2, m2⟩ := ih ((allocNotesH kv.2 h).2)
      exact ⟨Nat.le_trans n1 n2,
        fun b hb => by rw [m2 b (Nat.lt_of_lt_of_le hb n1), m1 b hb]⟩

theorem copyTypesH_frame (ts : List DocType) (pn pip : String) (fs : FileSet) (h : Heap) :
    h.next ≤ (copyTypesH ts pn pip fs h).2.next ∧
    ∀ b, b < h.next → (copyTypesH ts pn pip fs h).2.mem b = h.mem b := by
  induction ts generalizing h with
  | nil => exact ⟨Nat.le_refl _, fun b _ => rfl⟩
  | cons t rest ih =>
      rw [copyTypesH]
      dsimp only
      obtain ⟨n1, m1⟩ := CopyValuesH_frame t.consts pn pip fs h
      obtain ⟨n2, m2⟩ := CopyFuncsH_frame t.funcs pn pip fs
        ((CopyValuesH t.consts pn pip fs h).2)
      split
      · exact ⟨Nat.le_trans n1 n2,
          fun b hb => by rw [m2 b (Nat.lt_of_lt_of_le hb n1), m1 b hb]⟩
      · obtain ⟨n3, m3⟩ := CopyFuncsH_frame t.methods pn pip fs
          ((CopyFuncsH t.funcs pn pip fs ((CopyValuesH t.consts pn pip fs h).2)).2)
        split
        · exact ⟨Nat.le_trans (Nat.le_trans n1 n2) n3,
            fun b hb => by
              rw [m3 b (Nat.lt_of_lt_of_le hb (Nat.le_trans n1 n2)),
                m2 b (Nat.lt_of_lt_of_le hb n1), m1 b hb]⟩
        · obtain ⟨n4, m4⟩ := CopyValuesH_frame t.vars pn pip fs
            ((CopyFuncsH t.methods pn pip fs
              ((CopyFuncsH t.funcs pn pip fs
                ((CopyValuesH t.consts pn pip fs h).2)).2)).2)
          rename_i x2 ms heqm
          rename_i x1 fns heqf
          have A := alloc_then_frame (copyTypesH rest pn pip fs)
            (Obj.typeObj
              { name := t.name
                packageName := pn
                packageImportPath := pip
                type := "type"
                consts := (CopyValuesH t.consts pn pip fs h).1
                doc := t.doc
                funcs := fns
                methods := ms
                vars := (CopyValuesH t.vars pn pip fs
                  ((CopyFuncsH t.methods pn pip fs
                    ((CopyFuncsH t.funcs pn pip fs
                      ((CopyValuesH t.consts pn pip fs h).2)).2)).2)).1 })
            ((CopyValuesH t.vars pn pip fs
              ((CopyFuncsH t.methods pn pip fs
                ((CopyFuncsH t.funcs pn pip fs
                  ((CopyValuesH t.consts pn pip fs h).2)).2)).2)).2) ih
          split
          all_goals
            refine ⟨Nat.le_trans
              (Nat.le_trans (Nat.le_trans (Nat.le_trans n1 n2) n3) n4) A.1,
              fun b hb => ?_⟩
            rw [A.2 b (Nat.lt_of_lt_of_le hb
                (Nat.le_trans (Nat.le_trans (Nat.le_trans n1 n2) n3) n4)),
              m4 b (Nat.lt_of_lt_of_le hb (Nat.le_trans (Nat.le_trans n1 n2) n3)),
              m3 b (Nat.lt_of_lt_of_le hb (Nat.le_trans n1 n2)),
              m2 b (Nat.lt_of_lt_of_le hb n1), m1 b hb]

/--
C9: the model copier never writes through the input model's pointers.
The input `doc.Package`, like every object allocated before the call,
lives at an address below `h.next`; this theorem shows the heap after
`CopyPackageH` agrees with the initial heap on every such address (and
fresh allocations only ever grow `next`), so the copier's only effect
is allocating and returning the new output model and every field of
the input package, its values, types and functions is unchanged.
-/
theorem copyPackageH_preserves_input (pkg : DocPackage) (fileSet : FileSet) (h : Heap) :
    h.next ≤ (CopyPackageH pkg fileSet h).2.next ∧
    ∀ a, a < h.next → (CopyPackageH pkg fileSet h).2.mem a = h.mem a := by
  rw [CopyPackageH]
  dsimp only
  obtain ⟨n1, m1⟩ := copyNotesH_frame pkg.notes h
  obtain ⟨n2, m2⟩ := CopyValuesH_frame pkg.consts pkg.name pkg.importPath fileSet
    ((copyNotesH pkg.notes h).2)
  obtain ⟨n3, m3⟩ := CopyFuncsH_frame pkg.funcs pkg.name pkg.importPath fileSet
    ((CopyValuesH pkg.consts pkg.name pkg.importPath fileSet
      ((copyNotesH pkg.notes h).2)).2)
  split
  · exact ⟨Nat.le_trans (Nat.le_trans n1 n2) n3,
      fun a ha => by
        rw [m3 a (Nat.lt_of_lt_of_le ha (Nat.le_trans n1 n2)),
          m2 a (Nat.lt_of_lt_of_le ha n1), m1 a ha]⟩
  · obtain ⟨n4, m4⟩ := copyTypesH_frame pkg.types pkg.name pkg.importPath fileSet
      ((CopyFuncsH pkg.funcs pkg.name pkg.importPath fileSet
        ((CopyValuesH pkg.consts pkg.name pkg.importPath fileSet
          ((copyNotesH pkg.notes h).2)).2)).2)
    split
    · exact ⟨Nat.le_trans (Nat.le_trans (Nat.le_trans n1 n2) n3) n4,
        fun a ha => by
          rw [m4 a (Nat.lt_of_lt_of_le ha (Nat.le_trans (Nat.le_trans n1 n2) n3)),
            m3 a (Nat.lt_of_lt_of_le ha (Nat.le_trans n1 n2)),
            m2 a (Nat.lt_of_lt_of_le ha n1), m1 a ha]⟩
    · obtain ⟨n5, m5⟩ := CopyValuesH_frame pkg.vars pkg.name pkg.importPath fileSet
        ((copyTypesH pkg.types pkg.name pkg.importPath fileSet
          ((CopyFuncsH pkg.funcs pkg.name pkg.importPath fileSet
            ((CopyValuesH pkg.consts pkg.name pkg.importPath fileSet
              ((copyNotesH pkg.notes h).2)).2)).2)).2)
      exact ⟨Nat.le_trans (Nat.le_trans (Nat.le_trans (Nat.le_trans n1 n2) n3) n4) n5,
        fun a ha => by
          rw [m5 a (Nat.lt_of_lt_of_le ha
              (Nat.le_trans (Nat.le_trans (Nat.le_trans n1 n2) n3) n4)),
            m4 a (Nat.lt_of_lt_of_le ha (Nat.le_trans (Nat.le_trans n1 n2) n3)),
            m3 a (Nat.lt_of_lt_of_le ha (Nat.le_trans n1 n2)),
            m2 a (Nat.lt_of_lt_of_le ha n1), m1 a ha]⟩

/-- A concrete heap with one pre-existing object at address 0. -/
def heap0 : Heap :=
  { next := 1,
    mem := fun _ => some (.noteObj { pos := 0, endPos := 0, uid := "", body := "" }) }

/-- C9, witness: copying the concrete package `docPackage2` into
`heap0` leaves the pre-existing address 0 untouched. -/
theorem copyPackageH_preserves_input_witness :
    0 < heap0.next ∧
    (CopyPackageH docPackage2 fileSet0 heap0).2.mem 0 = heap0.mem 0 :=
  ⟨by decide,
   (copyPackageH_preserves_input docPackage2 fileSet0 heap0).2 0 (by decide)⟩

end Godocjson
